import Mathlib

/-!
# prom-query-stats: verification of the aggregation-and-ranking pipeline

A shallow embedding of the core of `prom-query-stats`, a batch tool that
reads a newline-delimited JSON query log, groups records by query text,
computes per-group statistics, percentile summaries and ranked views.

Conventions of the embedding:

* `time.Time` instants are modelled as `Int` (a timeline of ticks);
  `t.Before u` is `t < u`, `t.After u` is `u < t`, and the zero value
  `time.Time{}` is `0`.  Pointers `*time.Time` are `Option Int`.
* Go runtime panics (index out of range, nil pointer dereference) are the
  explicit result `crash`; returned `error` values are `err`.
* `float64` sample values carried by log records are modelled as `Int`:
  every claim under verification depends only on their linear order, never
  on their rounding behaviour.  The `float64` *index computation* inside
  `percentile`, however, is modelled bit-exactly (see `FloatBits` below),
  because the indexing claims do depend on IEEE-754 double rounding.
* Averages (`float64(sum)/float64(len)` in Go) are modelled as exact
  rationals via `Rat.divInt`; no claim depends on their rounding.
* JSON decoding is out of scope: an input line is either `malformed`
  (fails `json.Unmarshal`) or a decoded `LogEntry`.
-/

/-- Result of a Go computation: a normal value, a returned `error`,
or a runtime panic (`crash`). -/
inductive GoRes (α : Type) where
  | ok (val : α)
  | err (msg : String)
  | crash
deriving DecidableEq, Repr

/-! ## Bit-exact model of the `float64` index computation

`percentile` computes `k := (float64(p)/100.0) * float64(len(nums))` and
then `kth := int(math.Ceil(k))`.  Both `float64(p)` and `float64(len)` are
exact, so the two roundings are: the division `p/100` rounded to nearest
double (ties to even), and the product rounded to nearest double.  A
nonnegative double is a dyadic rational `m * 2^ex` with `m < 2^53`; we
compute with the pair `(m, ex)` in exact natural-number arithmetic. -/

/-- Number of binary digits of `n` (`bitsF fuel n`; fuel-driven so that the
kernel can evaluate it).  `bits 0 = 0`, `bits 1 = 1`, `bits 2 = 2`, ... -/
def bitsF : Nat → Nat → Nat
  | 0, _ => 0
  | fuel + 1, n => if n = 0 then 0 else bitsF fuel (n / 2) + 1

/-- Number of binary digits of `n`. -/
def bits (n : Nat) : Nat := bitsF n n

/-- Round the nonnegative rational `N / D` to the nearest integer,
ties to even (IEEE-754 default rounding). -/
def rne (N D : Nat) : Nat :=
  let q := N / D
  let r := N % D
  if 2 * r < D then q
  else if D < 2 * r then q + 1
  else if q % 2 = 0 then q else q + 1

/-- A nonnegative binary floating-point value `m * 2^ex`. -/
structure FloatBits where
  m : Nat
  ex : Int
deriving DecidableEq, Repr

/-- The nearest `float64` to the rational `a / b` (for `1 ≤ a`, `1 ≤ b`,
both within double range): mantissa `rne (a/b * 2^(52-e))` at the binade
`2^e ≤ a/b < 2^(e+1)`. -/
def roundToDouble (a b : Nat) : FloatBits :=
  let e0 : Int := (bits a : Int) - (bits b : Int)
  let e : Int := if b * 2 ^ e0.toNat ≤ a * 2 ^ (-e0).toNat then e0 else e0 - 1
  let t : Int := 52 - e
  let m : Nat := if 0 ≤ t then rne (a * 2 ^ t.toNat) b else rne a (b * 2 ^ (-t).toNat)
  ⟨m, e - 52⟩

/-- The nearest `float64` to `f * n` for a double `f` and an exact natural
`n`: the exact product mantissa, re-rounded to 53 bits when it overflows. -/
def mulNatDouble (f : FloatBits) (n : Nat) : FloatBits :=
  let M := f.m * n
  let sh : Nat := bits M - 53
  if sh = 0 then ⟨M, f.ex⟩ else ⟨rne M (2 ^ sh), f.ex + sh⟩

/-- `math.Ceil` of a nonnegative double, as a natural number. -/
def ceilFloat (f : FloatBits) : Nat :=
  if 0 ≤ f.ex then f.m * 2 ^ f.ex.toNat
  else (f.m + 2 ^ (-f.ex).toNat - 1) / 2 ^ (-f.ex).toNat

/-- The index the Go code computes:
`int(math.Ceil(float64(p)/100.0 * float64(n)))`. -/
def percIndex (p n : Nat) : Nat := ceilFloat (mulNatDouble (roundToDouble p 100) n)

/-! ## The percentile calculator (`percentile` in the source) -/

/-- Embedding of `percentile` (generic over `int | float64` in Go; sample
values are modelled as `Int`):

```go
func percentile[T int | float64](p int, nums []T) (T, error) {
    if p <= 0 || p > 100 { return 0, fmt.Errorf("percentile %d is out of range", p) }
    if len(nums) == 0 { return 0, fmt.Errorf("the slice is empty") }
    slices.Sort(nums)
    var k float64 = (float64(p)/100.0) * float64(len(nums))
    var kth int = int(math.Ceil(k))
    return nums[kth], nil
}
```

`slices.Sort` sorts ascending; on `Int` samples the ascending reordering
is unique, so any correct sort is extensionally the one Go produces.
An out-of-range `nums[kth]` is a runtime panic, i.e. `crash`. -/
def percentile (p : Int) (nums : List Int) : GoRes Int :=
  if p ≤ 0 ∨ 100 < p then .err "percentile rank is out of range"
  else if nums.length = 0 then .err "the slice is empty"
  else
    let sorted := List.insertionSort (· ≤ ·) nums
    let kth : Nat := percIndex p.toNat nums.length
    match sorted[kth]? with
    | some v => .ok v
    | none => .crash

/-- The percentile procedure exactly as the specification words it:
sort ascending, index `k = ceil(p/100 * count)` computed in *exact*
arithmetic, return the element at 0-based index `k` with no clamping.
(For naturals `0 < p`, `ceil (p*n/100) = (p*n + 99) / 100`.) -/
def percentileNearestRankSpec (p : Int) (nums : List Int) : GoRes Int :=
  if p ≤ 0 ∨ 100 < p then .err "percentile rank is out of range"
  else if nums.length = 0 then .err "the slice is empty"
  else
    let sorted := List.insertionSort (· ≤ ·) nums
    let kth : Nat := (p.toNat * nums.length + 99) / 100
    match sorted[kth]? with
    | some v => .ok v
    | none => .crash

/-- The percentile procedure as amended: identical to the spec's wording
except that the index is the `float64` evaluation
`ceil(fl64(fl64(p/100) * n))` of the formula.  Written over a different
sort (`List.mergeSort`) so that the refinement proof genuinely compares
two formulations. -/
def percentileAmendedSpec (p : Int) (nums : List Int) : GoRes Int :=
  if p ≤ 0 ∨ 100 < p then .err "percentile rank is out of range"
  else if nums.length = 0 then .err "the slice is empty"
  else
    let sorted := nums.mergeSort (fun a b => decide (a ≤ b))
    match sorted[percIndex p.toNat nums.length]? with
    | some v => .ok v
    | none => .crash

/-! ## The data model (`LogEntry`, `Query`) -/

/-- One decoded query-log record (`LogEntry` in the source).  `ts` models
the pointer field `TS *time.Time`; `none` is a nil pointer (a line whose
JSON carries no `ts`).  Numeric fields absent from a line decode to zero.
The six timing fields are `float64` in Go, modelled as `Int` (see the
header note); `ruleGroup` carries the optional `(name, file)` pair. -/
structure LogEntry where
  query : String
  startT : Option Int
  endT : Option Int
  step : Int
  evalTotalTime : Int
  execQueueTime : Int
  execTotalTime : Int
  innerEvalTime : Int
  queryPreparationTime : Int
  resultSortTime : Int
  totalQueryableSamples : Int
  peakSamples : Int
  ruleGroup : Option (String × String)
  ts : Option Int
deriving DecidableEq, Inhabited, Repr

/-- Aggregate for one distinct query string (`Query` in the source).
Averages are `float64(sum)/float64(len)` in Go, modelled as the exact
rationals `Rat.divInt sum len`. -/
structure Query where
  query : String
  logs : List LogEntry
  avgExecTotalTime : ℚ
  avgTotalQueryableSamples : ℚ
  avgPeakSamples : ℚ
  maxExecTotalTimeEntry : LogEntry
  maxTotalQueryableSamplesEntry : LogEntry
  maxPeakSamplesEntry : LogEntry
deriving DecidableEq, Repr

/-- Embedding of `NewQuery`: rejects an empty query string and an empty
log slice, then computes the three averages and, by a single pass with a
strict `>` comparison seeded with `logs[0]`, the three max-provenance
entries.  `Option` stands for the `(*Query, error)` pair. -/
def NewQuery (query : String) (logs : List LogEntry) : Option Query :=
  if query = "" then none
  else
    match logs with
    | [] => none
    | first :: _ =>
      some
        { query := query
          logs := logs
          avgExecTotalTime :=
            Rat.divInt ((logs.map (·.execTotalTime)).foldl (· + ·) 0) logs.length
          avgTotalQueryableSamples :=
            Rat.divInt ((logs.map (·.totalQueryableSamples)).foldl (· + ·) 0) logs.length
          avgPeakSamples :=
            Rat.divInt ((logs.map (·.peakSamples)).foldl (· + ·) 0) logs.length
          maxExecTotalTimeEntry :=
            logs.foldl (fun cur l => if cur.execTotalTime < l.execTotalTime then l else cur) first
          maxTotalQueryableSamplesEntry :=
            logs.foldl
              (fun cur l => if cur.totalQueryableSamples < l.totalQueryableSamples then l else cur)
              first
          maxPeakSamplesEntry :=
            logs.foldl (fun cur l => if cur.peakSamples < l.peakSamples then l else cur) first }

/-! ## The aggregator (`LoadQueriesFromLog`)

The variant with the flat filtered record list (the file that also holds
`percentile`) is modelled first; the `LoadStats` variant from `main.go`
follows further below.  An input line is `malformed` when
`json.Unmarshal` fails on it. -/

/-- One line of the raw input stream, after the record decoder ran. -/
inductive Line where
  | malformed
  | entry (e : LogEntry)
deriving DecidableEq, Repr

/-- The per-query buckets `map[string][]*LogEntry`, linearised as an
association list in key-first-appearance order.  Go's map iteration order
is unspecified; every claim under verification only uses the multiset of
buckets, which is the same for every iteration order. -/
abbrev QMap := List (String × List LogEntry)

/-- `qMap[entry.Params.Query] = append(qMap[entry.Params.Query], &entry)`:
append `e` to the bucket keyed `k`, creating the bucket if absent. -/
def appendBucket : QMap → String → LogEntry → QMap
  | [], k, e => [(k, [e])]
  | (k', ls) :: rest, k, e =>
    if k' = k then (k', ls ++ [e]) :: rest else (k', ls) :: appendBucket rest k e

/-- The aggregation loop's mutable state: the buckets and the flat
arrival-ordered list of surviving records. -/
structure AggSt where
  qMap : QMap
  logs : List LogEntry
deriving DecidableEq, Repr

/-- A surviving record is appended to its bucket and to the flat list. -/
def pushEntry (st : AggSt) (e : LogEntry) : AggSt :=
  { qMap := appendBucket st.qMap e.query e, logs := st.logs ++ [e] }

/-- Outcome of one loop iteration: continue with an updated state, abort
with a parse error carrying the reported line number, or panic. -/
inductive StepRes where
  | cont (st : AggSt)
  | abortParse (lineNum : Nat)
  | abortCrash
deriving DecidableEq, Repr

/-- The `to`-bound check and the append, after the `from` check passed:
`if to != nil && entry.TS.After(*to) { continue }`.  Dereferencing a nil
`TS` is a panic. -/
def checkToAndAppend (toT : Option Int) (st : AggSt) (e : LogEntry) : StepRes :=
  match toT with
  | some u =>
    match e.ts with
    | none => .abortCrash
    | some t => if u < t then .cont st else .cont (pushEntry st e)
  | none => .cont (pushEntry st e)

/-- One iteration of the scan loop of `LoadQueriesFromLog`:
`json.Unmarshal` failure aborts with the current (0-based) `lineNum`;
an empty query is skipped with a warning; then
`if from != nil && entry.TS.Before(*from) { continue }` and the `to`
check; survivors are appended. -/
def loopBody (fromT toT : Option Int) (lineNum : Nat) (st : AggSt) : Line → StepRes
  | .malformed => .abortParse lineNum
  | .entry e =>
    if e.query = "" then .cont st
    else
      match fromT with
      | some f =>
        match e.ts with
        | none => .abortCrash
        | some t => if t < f then .cont st else checkToAndAppend toT st e
      | none => checkToAndAppend toT st e

/-- Overall outcome of `LoadQueriesFromLog`: the queries and the flat
filtered record list, a parse error carrying the reported line number,
the (unreachable) `NewQuery` failure, or a runtime panic. -/
inductive LoadOutcome where
  | ok (queries : List Query) (logs : List LogEntry)
  | parseErr (lineNum : Nat)
  | newQueryErr
  | crash
deriving DecidableEq, Repr

/-- The post-loop conversion of buckets into `Query` values, propagating
a `NewQuery` failure. -/
def buildQueries : QMap → Option (List Query)
  | [] => some []
  | (k, ls) :: rest =>
    match NewQuery k ls, buildQueries rest with
    | some q, some qs => some (q :: qs)
    | _, _ => none

/-- After the stream is exhausted: convert every bucket. -/
def finalize (st : AggSt) : LoadOutcome :=
  match buildQueries st.qMap with
  | some qs => .ok qs st.logs
  | none => .newQueryErr

/-- The scan loop: `for lineNum := 0; scanner.Scan(); lineNum++`. -/
def runLoop (fromT toT : Option Int) : Nat → AggSt → List Line → LoadOutcome
  | _, st, [] => finalize st
  | n, st, l :: rest =>
    match loopBody fromT toT n st l with
    | .cont st2 => runLoop fromT toT (n + 1) st2 rest
    | .abortParse k => .parseErr k
    | .abortCrash => .crash

/-- Embedding of `LoadQueriesFromLog(file, from, to)` over the decoded
line stream. -/
def loadQueriesFromLog (lines : List Line) (fromT toT : Option Int) : LoadOutcome :=
  runLoop fromT toT 0 { qMap := [], logs := [] } lines

/-- The spec's time-window predicate, as a pure boolean: keep a record
with timestamp `t` iff `from ≤ t` (when `from` is set) and `t ≤ to`
(when `to` is set) — both bounds inclusive. -/
def inWindow (fromT toT : Option Int) (t : Int) : Bool :=
  (match fromT with
   | some f => decide (f ≤ t)
   | none => true)
  &&
  (match toT with
   | some u => decide (t ≤ u)
   | none => true)

/-- A line on which the scan loop aborts: a malformed line, or a decoded
record with a non-empty query, a nil `ts`, and at least one window bound
set (the bound check then dereferences the nil pointer). -/
def lineFatal (fromT toT : Option Int) : Line → Bool
  | .malformed => true
  | .entry e =>
    decide (e.query ≠ "") && decide (e.ts = none) && (fromT.isSome || toT.isSome)

/-! ## The `main.go` aggregator variant (`LoadStats`)

`main.go` holds a near-duplicate `LoadQueriesFromLog` that, instead of the
flat filtered list, maintains a running summary
`stats := LoadStats{0, time.Now(), time.Time{}}`: the survivor count, and
min/max tracking seeded with the *current clock* (`now0` below) and the
*zero time* (`0` in this model).  The stats update dereferences
`entry.TS` unconditionally. -/

/-- The `LoadStats` summary of `main.go`. -/
structure LoadStats where
  num : Int
  fromT : Int
  toT : Int
deriving DecidableEq, Repr

/-- Mutable state of the `main.go` scan loop. -/
structure MainSt where
  qMap : QMap
  stats : LoadStats
deriving DecidableEq, Repr

/-- One-iteration outcome for the `main.go` loop. -/
inductive MainStepRes where
  | cont (st : MainSt)
  | abortParse (lineNum : Nat)
  | abortCrash
deriving DecidableEq, Repr

/-- `stats.Num++`, then `if entry.TS.Before(stats.From) { stats.From = *entry.TS }`
and `if entry.TS.After(stats.To) { stats.To = *entry.TS }`. -/
def statsUpdate (s : LoadStats) (t : Int) : LoadStats :=
  { num := s.num + 1
    fromT := if t < s.fromT then t else s.fromT
    toT := if s.toT < t then t else s.toT }

/-- Append a survivor to its bucket and update the running stats; the
stats update dereferences `entry.TS`, so a nil `ts` panics here even with
no window bound set. -/
def mainAppend (st : MainSt) (e : LogEntry) : MainStepRes :=
  match e.ts with
  | none => .abortCrash
  | some t => .cont { qMap := appendBucket st.qMap e.query e, stats := statsUpdate st.stats t }

/-- The `to`-bound check of the `main.go` loop. -/
def mainCheckToAndAppend (toT : Option Int) (st : MainSt) (e : LogEntry) : MainStepRes :=
  match toT with
  | some u =>
    match e.ts with
    | none => .abortCrash
    | some t => if u < t then .cont st else mainAppend st e
  | none => mainAppend st e

/-- One iteration of the `main.go` scan loop (same shape as `loopBody`,
plus the stats update). -/
def mainLoopBody (fromT toT : Option Int) (lineNum : Nat) (st : MainSt) : Line → MainStepRes
  | .malformed => .abortParse lineNum
  | .entry e =>
    if e.query = "" then .cont st
    else
      match fromT with
      | some f =>
        match e.ts with
        | none => .abortCrash
        | some t => if t < f then .cont st else mainCheckToAndAppend toT st e
      | none => mainCheckToAndAppend toT st e

/-- Overall outcome of the `main.go` `LoadQueriesFromLog`. -/
inductive MainOutcome where
  | ok (queries : List Query) (stats : LoadStats)
  | parseErr (lineNum : Nat)
  | newQueryErr
  | crash
deriving DecidableEq, Repr

/-- Bucket conversion of the `main.go` variant (same `NewQuery`). -/
def finalizeMain (st : MainSt) : MainOutcome :=
  match buildQueries st.qMap with
  | some qs => .ok qs st.stats
  | none => .newQueryErr

/-- The `main.go` scan loop. -/
def runMainLoop (fromT toT : Option Int) : Nat → MainSt → List Line → MainOutcome
  | _, st, [] => finalizeMain st
  | n, st, l :: rest =>
    match mainLoopBody fromT toT n st l with
    | .cont st2 => runMainLoop fromT toT (n + 1) st2 rest
    | .abortParse k => .parseErr k
    | .abortCrash => .crash

/-- Embedding of `main.go`'s `LoadQueriesFromLog(file, from, to)`.
`now0` is the value `time.Now()` read when the stats are initialised. -/
def loadQueriesFromLogMain (lines : List Line) (fromT toT : Option Int) (now0 : Int) :
    MainOutcome :=
  runMainLoop fromT toT 0 { qMap := [], stats := { num := 0, fromT := now0, toT := 0 } } lines

/-- The timestamps of the records that survive decoding, the empty-query
skip and the time-window filter, in arrival order (a pure restatement of
the filter used to phrase the stats claims). -/
def survivorsTs (fromT toT : Option Int) : List Line → List Int :=
  List.filterMap fun l =>
    match l with
    | .malformed => none
    | .entry e =>
      if e.query = "" then none
      else
        match e.ts with
        | none => none
        | some t => if inWindow fromT toT t then some t else none

/-! ## The ranker (`main`'s top-count clamp and slice) -/

/-- The top-count clamp and slice of `main`:
`if *argTop > len(queries) { *argTop = len(queries) }` followed by
`queries[:*argTop]`.  A negative bound makes the slice expression panic
at runtime (`crash`); after the clamp the bound never exceeds the
length. -/
def topSlice (argTop : Int) (queries : List Query) : GoRes (List Query) :=
  let top : Int := if argTop > (queries.length : Int) then (queries.length : Int) else argTop
  if 0 ≤ top then .ok (queries.take top.toNat) else .crash

/-- One ranked view: sort the groups by the comparator `r` (descending on
some metric; any comparator-respecting reordering has the same length,
which is all the ranking claims measure), then clamp-and-slice. -/
def rankedView (r : Query → Query → Prop) [DecidableRel r] (argTop : Int)
    (queries : List Query) : GoRes (List Query) :=
  topSlice argTop (List.insertionSort r queries)

/-- The `ByAvgExecTotalTime` descending comparator used by the first
ranked table. -/
def byAvgExecDesc (a b : Query) : Prop :=
  b.avgExecTotalTime ≤ a.avgExecTotalTime

instance : DecidableRel byAvgExecDesc := fun a b =>
  inferInstanceAs (Decidable (b.avgExecTotalTime ≤ a.avgExecTotalTime))

/-! ## The first-max specification predicate -/

/-- `r` is the *first* record of `l` achieving the maximum of `metric`:
some position `i` holds `r`, every record's metric is at most `metric r`,
and every record strictly before position `i` is strictly below it. -/
def isFirstMax (metric : LogEntry → Int) (l : List LogEntry) (r : LogEntry) : Prop :=
  ∃ i, i < l.length ∧ l.getD i default = r ∧
    (∀ x ∈ l, metric x ≤ metric r) ∧
    (∀ x ∈ l.take i, metric x < metric r)

/-! ## Concrete fixtures for witnesses and counterexamples -/

/-- A record with every numeric field zero and no optional field set. -/
def baseEntry : LogEntry :=
  { query := "", startT := none, endT := none, step := 0, evalTotalTime := 0
    execQueueTime := 0, execTotalTime := 0, innerEvalTime := 0
    queryPreparationTime := 0, resultSortTime := 0, totalQueryableSamples := 0
    peakSamples := 0, ruleGroup := none, ts := none }

/-- A well-formed record for the query `"up"`. -/
def eUp : LogEntry :=
  { baseEntry with query := "up", ts := some 5, execTotalTime := 3
                   totalQueryableSamples := 10, peakSamples := 4 }

/-- A second `"up"` record tying `eUp` on execution time but later in
arrival order (its other metrics are larger). -/
def eUpTie : LogEntry :=
  { baseEntry with query := "up", ts := some 7, execTotalTime := 3
                   totalQueryableSamples := 20, peakSamples := 9 }

/-- A structurally valid record whose query field is empty. -/
def eEmptyQ : LogEntry :=
  { baseEntry with ts := some 5 }

/-- A record with a non-empty query but no `ts` field (nil `TS`). -/
def eNoTs : LogEntry :=
  { baseEntry with query := "up" }

/-- A record timestamped *after* the clock value used to seed
`LoadStats.From` in the `main.go` variant. -/
def eFuture : LogEntry :=
  { baseEntry with query := "up", ts := some 200, execTotalTime := 1 }

/-- An already-sorted list of 25 distinct samples `0..24`. -/
def sampleList25 : List Int :=
  [0, 1, 2, 3, 4, 5, 6, 7, 8, 9, 10, 11, 12, 13, 14, 15, 16, 17, 18, 19,
   20, 21, 22, 23, 24]

/-- A group with average execution time 3. -/
def qGroupA : Query :=
  { query := "up", logs := [eUp], avgExecTotalTime := 3
    avgTotalQueryableSamples := 10, avgPeakSamples := 4
    maxExecTotalTimeEntry := eUp, maxTotalQueryableSamplesEntry := eUp
    maxPeakSamplesEntry := eUp }

/-- A group with average execution time 1. -/
def qGroupB : Query :=
  { query := "sum(rate(x[5m]))", logs := [eFuture], avgExecTotalTime := 1
    avgTotalQueryableSamples := 0, avgPeakSamples := 0
    maxExecTotalTimeEntry := eFuture, maxTotalQueryableSamplesEntry := eFuture
    maxPeakSamplesEntry := eFuture }

/-- The stats component of a `main.go` load outcome, when it succeeded. -/
def mainStats? : MainOutcome → Option LoadStats
  | .ok _ stats => some stats
  | _ => none

/-- The group `NewQuery` builds from `[eUp, eUpTie]` (averages written as
the exact quotients the embedding computes). -/
def qUpTieGroup : Query :=
  { query := "up", logs := [eUp, eUpTie], avgExecTotalTime := 3
    avgTotalQueryableSamples := 15, avgPeakSamples := Rat.divInt 13 2
    maxExecTotalTimeEntry := eUp, maxTotalQueryableSamplesEntry := eUpTie
    maxPeakSamplesEntry := eUpTie }

/-! ## Theorems

### C1, C2 — the percentile calculator -/

/-- Helper: the ascending insertion sort and the ascending merge sort of
an integer list agree (both are sorted permutations, and on a linear
order the sorted permutation is unique). -/
theorem insertionSort_eq_mergeSort (l : List Int) :
    List.insertionSort (· ≤ ·) l = l.mergeSort (fun a b => decide (a ≤ b)) := by
  apply @List.eq_of_perm_of_sorted Int (· ≤ ·) inferInstance _ _
    ((List.perm_insertionSort _ l).trans (l.mergeSort_perm _).symm)
  · exact List.sorted_insertionSort _ l
  · have htrans : ∀ a b c : Int, decide (a ≤ b) = true → decide (b ≤ c) = true →
        decide (a ≤ c) = true := by
      intro a b c hab hbc
      simp only [decide_eq_true_eq] at *
      omega
    have htotal : ∀ a b : Int, (decide (a ≤ b) || decide (b ≤ a)) = true := by
      intro a b
      by_cases h : a ≤ b
      · simp [h]
      · simp [le_of_not_le h]
    have h := List.sorted_mergeSort htrans htotal l
    exact h.imp fun hab => of_decide_eq_true hab

/-- C1 (counterexample): for the valid rank `p = 100` and the non-empty
sample list `[5]`, `percentile` indexes one past the end of the sorted
slice and panics instead of returning an element of the list. -/
theorem c1_percentile_oob_counterexample : percentile 100 [5] = GoRes.crash := by decide

/-- C1 (amended): for every rank `1 ≤ p ≤ 100` and non-empty sample list,
*whenever the computed index is in bounds*, `percentile` returns a value
that is an element of the input list; when the index reaches the length
(e.g. `p = 100`, or any rank on a single-element list) the lookup is out
of bounds and the call panics. -/
theorem c1_percentile_mem (p : Int) (nums : List Int) (h1 : 1 ≤ p) (h2 : p ≤ 100)
    (h3 : nums ≠ []) (h4 : percIndex p.toNat nums.length < nums.length) :
    ∃ v, percentile p nums = GoRes.ok v ∧ v ∈ nums := by
  have hp : ¬(p ≤ 0 ∨ 100 < p) := by omega
  have hlen : ¬nums.length = 0 := by
    simpa using h3
  unfold percentile
  rw [if_neg hp, if_neg hlen]
  have hperm : (List.insertionSort (· ≤ ·) nums).Perm nums := List.perm_insertionSort _ _
  have hidx : percIndex p.toNat nums.length < (List.insertionSort (· ≤ ·) nums).length := by
    rw [hperm.length_eq]
    exact h4
  show ∃ v,
      (match (List.insertionSort (· ≤ ·) nums)[percIndex p.toNat nums.length]? with
        | some v => GoRes.ok v
        | none => GoRes.crash) = GoRes.ok v ∧ v ∈ nums
  rw [List.getElem?_eq_getElem hidx]
  exact ⟨_, rfl, hperm.subset (List.getElem_mem hidx)⟩

/-- C1 (witness): at rank 50 over four samples the index is in bounds and
the returned value `3` is an element of the input. -/
theorem c1_percentile_mem_witness :
    percIndex (50 : Int).toNat ([3, 1, 4, 1] : List Int).length <
        ([3, 1, 4, 1] : List Int).length ∧
      ∃ v, percentile 50 [3, 1, 4, 1] = GoRes.ok v ∧ v ∈ ([3, 1, 4, 1] : List Int) :=
  ⟨by decide, c1_percentile_mem 50 [3, 1, 4, 1] (by decide) (by decide) (by decide) (by decide)⟩

/-- C2 (counterexample): the code does *not* return the element at the
exact index `ceil(p/100 * count)`: the index is evaluated in `float64`,
and at `p = 28` over the 25 distinct samples `0..24` the code rounds
`0.28 * 25` up to `7.000000000000001`, takes index 8 and returns `8`,
while the exact nearest-rank formula takes index 7 and returns `7`. -/
theorem c2_percentile_float_counterexample :
    percentile 28 sampleList25 = GoRes.ok 8 ∧
      percentileNearestRankSpec 28 sampleList25 = GoRes.ok 7 ∧
      percentile 28 sampleList25 ≠ percentileNearestRankSpec 28 sampleList25 := by
  refine ⟨by decide, by decide, ?_⟩
  decide

/-- C2 (amended): `percentile` sorts the samples ascending and returns
the element at the 0-based index `ceil(fl64(fl64(p/100) * count))` — the
`float64` evaluation of `ceil(p/100 * count)` — with no interpolation and
no clamping of the index (an out-of-range index panics); equivalently, it
coincides with `percentileAmendedSpec` on every input. -/
theorem c2_percentile_eq_amended_spec (p : Int) (nums : List Int) :
    percentile p nums = percentileAmendedSpec p nums := by
  unfold percentile percentileAmendedSpec
  rw [insertionSort_eq_mergeSort]

/-! ### C3 — abort position on the first malformed line -/

/-- Helper: the scan loop continues (with some state) on every non-fatal
line, independent of the current line number. -/
theorem loopBody_cont_of_not_fatal (fromT toT : Option Int) (n : Nat) (st : AggSt)
    (l : Line) (h : lineFatal fromT toT l = false) :
    ∃ st2, loopBody fromT toT n st l = .cont st2 := by
  cases l with
  | malformed => simp [lineFatal] at h
  | entry e =>
    by_cases hq : e.query = ""
    · exact ⟨st, by simp [loopBody, hq]⟩
    · cases hts : e.ts with
      | none =>
        have hft : fromT = none ∧ toT = none := by
          simp only [lineFatal, hq, hts] at h
          cases fromT <;> cases toT <;> simp_all
        obtain ⟨hf, ht⟩ := hft
        subst hf
        subst ht
        exact ⟨pushEntry st e, by simp [loopBody, hq, checkToAndAppend, hts]⟩
      | some t =>
        cases fromT with
        | some f =>
          by_cases hlt : t < f
          · exact ⟨st, by simp [loopBody, hq, hts, hlt]⟩
          · cases toT with
            | none =>
              exact ⟨pushEntry st e, by simp [loopBody, hq, hts, hlt, checkToAndAppend]⟩
            | some u =>
              by_cases hu : u < t
              · exact ⟨st, by simp [loopBody, hq, hts, hlt, checkToAndAppend, hu]⟩
              · exact ⟨pushEntry st e,
                  by simp [loopBody, hq, hts, hlt, checkToAndAppend, hu]⟩
        | none =>
          cases toT with
          | none => exact ⟨pushEntry st e, by simp [loopBody, hq, checkToAndAppend, hts]⟩
          | some u =>
            by_cases hu : u < t
            · exact ⟨st, by simp [loopBody, hq, checkToAndAppend, hts, hu]⟩
            · exact ⟨pushEntry st e, by simp [loopBody, hq, checkToAndAppend, hts, hu]⟩

/-- C3 (counterexample): a stream whose very first line is malformed
aborts with reported line number `0`, not the 1-based `1` the claim
requires. -/
theorem c3_zero_based_counterexample :
    loadQueriesFromLog [Line.malformed] none none = LoadOutcome.parseErr 0 ∧ (0 : Nat) ≠ 1 := by
  decide

/-- C3 (amended): aggregation stops at the first malformed line and fails
with an error carrying that line's **0-based** position: for any prefix
of lines the loop survives, the reported number is the prefix length, and
nothing after the malformed line is processed (the result does not depend
on `rest`). -/
theorem c3_parse_error_position (good rest : List Line) (fromT toT : Option Int)
    (h : ∀ l ∈ good, lineFatal fromT toT l = false) :
    loadQueriesFromLog (good ++ Line.malformed :: rest) fromT toT =
      LoadOutcome.parseErr good.length := by
  suffices H : ∀ (n : Nat) (st : AggSt),
      runLoop fromT toT n st (good ++ Line.malformed :: rest) =
        LoadOutcome.parseErr (n + good.length) by
    simpa using H 0 { qMap := [], logs := [] }
  induction good with
  | nil => intro n st; simp [runLoop, loopBody]
  | cons l ls ih =>
    intro n st
    obtain ⟨st2, hst2⟩ :=
      loopBody_cont_of_not_fatal fromT toT n st l (h l (by simp))
    have hrec := ih (fun x hx => h x (by simp [hx])) (n + 1) st2
    calc runLoop fromT toT n st ((l :: ls) ++ Line.malformed :: rest)
        = runLoop fromT toT (n + 1) st2 (ls ++ Line.malformed :: rest) := by
          simp [runLoop, hst2]
      _ = LoadOutcome.parseErr (n + 1 + ls.length) := hrec
      _ = LoadOutcome.parseErr (n + (l :: ls).length) := by
          simp only [List.length_cons]
          congr 1
          omega

/-- C3 (witness): one good line, then a malformed one — the error names
position 1 (0-based), and trailing lines are ignored. -/
theorem c3_parse_error_position_witness :
    (∀ l ∈ [Line.entry eUp], lineFatal none none l = false) ∧
      loadQueriesFromLog [Line.entry eUp, Line.malformed, Line.malformed] none none =
        LoadOutcome.parseErr 1 :=
  ⟨by decide, c3_parse_error_position [Line.entry eUp] [Line.malformed] none none (by decide)⟩

/-! ### C4 — empty-query records are skipped, not fatal -/

/-- C4: a structurally valid record with an empty query leaves the loop
state untouched (it joins no bucket and no filtered-record entry) and the
run continues; a stream of just that record yields zero groups and an
empty filtered list rather than an error. -/
theorem c4_empty_query_skipped (fromT toT : Option Int) (n : Nat) (st : AggSt)
    (e : LogEntry) (h : e.query = "") :
    loopBody fromT toT n st (.entry e) = .cont st ∧
      loadQueriesFromLog [.entry e] fromT toT = LoadOutcome.ok [] [] := by
  refine ⟨by simp [loopBody, h], ?_⟩
  simp [loadQueriesFromLog, runLoop, loopBody, h, finalize, buildQueries]

/-- C4 (witness): the concrete empty-query record `eEmptyQ`, with a
`from` bound set, is skipped and the run succeeds with zero groups. -/
theorem c4_empty_query_skipped_witness :
    eEmptyQ.query = "" ∧
      loopBody (some 0) none 3 { qMap := [], logs := [] } (.entry eEmptyQ) =
        .cont { qMap := [], logs := [] } ∧
      loadQueriesFromLog [.entry eEmptyQ] (some 0) none = LoadOutcome.ok [] [] :=
  ⟨by decide,
    (c4_empty_query_skipped (some 0) none 3 { qMap := [], logs := [] } eEmptyQ (by decide)).1,
    (c4_empty_query_skipped (some 0) none 3 { qMap := [], logs := [] } eEmptyQ (by decide)).2⟩

/-! ### C5 — the inclusive time-window filter -/

/-- C5: for a decoded record with a non-empty query and a present
timestamp `t`, one loop step retains the record (appending it to its
bucket and to the filtered list) exactly when `t` lies in the inclusive
window, and otherwise leaves the state untouched — records at the
boundary values themselves are kept, records strictly outside are
excluded from all further processing. -/
theorem c5_time_window_filter (fromT toT : Option Int) (n : Nat) (st : AggSt)
    (e : LogEntry) (t : Int) (hq : e.query ≠ "") (hts : e.ts = some t) :
    loopBody fromT toT n st (.entry e) =
      .cont (if inWindow fromT toT t then pushEntry st e else st) := by
  cases fromT with
  | none =>
    cases toT with
    | none => simp [loopBody, hq, hts, checkToAndAppend, inWindow]
    | some u =>
      by_cases hu : u < t
      · have hw : inWindow none (some u) t = false := by
          simp [inWindow]
          omega
        simp [loopBody, hq, hts, checkToAndAppend, hu, hw]
      · have hw : inWindow none (some u) t = true := by
          simp [inWindow]
          omega
        simp [loopBody, hq, hts, checkToAndAppend, hu, hw]
  | some f =>
    by_cases hlt : t < f
    · have hw : inWindow (some f) toT t = false := by
        cases toT <;> simp [inWindow] <;> omega
      simp [loopBody, hq, hts, hlt, hw]
    · cases toT with
      | none =>
        have hw : inWindow (some f) none t = true := by
          simp [inWindow]
          omega
        simp [loopBody, hq, hts, hlt, checkToAndAppend, hw]
      | some u =>
        by_cases hu : u < t
        · have hw : inWindow (some f) (some u) t = false := by
            simp [inWindow]
            omega
          simp [loopBody, hq, hts, hlt, checkToAndAppend, hu, hw]
        · have hw : inWindow (some f) (some u) t = true := by
            simp [inWindow]
            omega
          simp [loopBody, hq, hts, hlt, checkToAndAppend, hu, hw]

/-- C5 (witness): the record `eUp` (timestamp 5) against the window
`[5, 20]` sits exactly on the `from` bound and is retained. -/
theorem c5_time_window_filter_witness :
    eUp.query ≠ "" ∧ eUp.ts = some 5 ∧ inWindow (some 5) (some 20) 5 = true ∧
      loopBody (some 5) (some 20) 0 { qMap := [], logs := [] } (.entry eUp) =
        .cont (if inWindow (some 5) (some 20) 5
          then pushEntry { qMap := [], logs := [] } eUp
          else { qMap := [], logs := [] }) :=
  ⟨by decide, by decide, by decide,
    c5_time_window_filter (some 5) (some 20) 0 { qMap := [], logs := [] } eUp 5
      (by decide) (by decide)⟩

/-! ### C6 — buckets partition the filtered record list -/

/-- Helper: appending an entry to its bucket appends it, up to
permutation, to the concatenation of all buckets. -/
theorem appendBucket_join_perm (m : QMap) (k : String) (e : LogEntry) :
    (((appendBucket m k e).map Prod.snd).flatten).Perm
      ((m.map Prod.snd).flatten ++ [e]) := by
  induction m with
  | nil => simp [appendBucket]
  | cons p rest ih =>
    obtain ⟨k', ls⟩ := p
    by_cases hk : k' = k
    · simp only [appendBucket, if_pos hk, List.map_cons, List.flatten_cons]
      rw [List.append_assoc, List.append_assoc]
      exact List.perm_append_comm.append_left ls
    · simp only [appendBucket, if_neg hk, List.map_cons, List.flatten_cons]
      rw [List.append_assoc]
      exact ih.append_left ls

/-- Helper: bucket well-formedness (non-empty keys, non-empty buckets) is
preserved by `appendBucket`. -/
theorem appendBucket_wf (m : QMap) (k : String) (e : LogEntry)
    (hwf : ∀ p ∈ m, p.1 ≠ "" ∧ p.2 ≠ []) (hk : k ≠ "") :
    ∀ p ∈ appendBucket m k e, p.1 ≠ "" ∧ p.2 ≠ [] := by
  induction m with
  | nil =>
    intro p hp
    simp [appendBucket] at hp
    subst hp
    exact ⟨hk, by simp⟩
  | cons q rest ih =>
    obtain ⟨k', ls⟩ := q
    intro p hp
    by_cases hkk : k' = k
    · simp only [appendBucket, if_pos hkk, List.mem_cons] at hp
      rcases hp with hp | hp
      · subst hp
        exact ⟨(hwf (k', ls) (by simp)).1, by simp⟩
      · exact hwf p (by simp [hp])
    · simp only [appendBucket, if_neg hkk, List.mem_cons] at hp
      rcases hp with hp | hp
      · subst hp
        exact hwf (k', ls) (by simp)
      · exact ih (fun r hr => hwf r (by simp [hr])) p hp

/-- Helper: `NewQuery` succeeds on a non-empty key and bucket, and stores
the bucket unchanged as the group's record list. -/
theorem newQuery_some (k : String) (ls : List LogEntry) (hk : k ≠ "") (hls : ls ≠ []) :
    ∃ q, NewQuery k ls = some q ∧ q.logs = ls := by
  cases ls with
  | nil => simp at hls
  | cons a l =>
    unfold NewQuery
    rw [if_neg hk]
    exact ⟨_, rfl, rfl⟩

/-- Helper: converting well-formed buckets succeeds and maps each bucket
to a group holding exactly that bucket's records. -/
theorem buildQueries_ok (m : QMap) (hwf : ∀ p ∈ m, p.1 ≠ "" ∧ p.2 ≠ []) :
    ∃ qs, buildQueries m = some qs ∧ qs.map Query.logs = m.map Prod.snd := by
  induction m with
  | nil => exact ⟨[], rfl, rfl⟩
  | cons p rest ih =>
    obtain ⟨k, ls⟩ := p
    obtain ⟨hk, hls⟩ := hwf (k, ls) (by simp)
    obtain ⟨q, hq, hqlogs⟩ := newQuery_some k ls hk hls
    obtain ⟨qs, hqs, hmap⟩ := ih (fun r hr => hwf r (by simp [hr]))
    refine ⟨q :: qs, ?_, ?_⟩
    · simp [buildQueries, hq, hqs]
    · simp [hmap, hqlogs]

/-- Helper: a loop step that continues either leaves the state unchanged
(skip) or pushes one decoded entry with a non-empty query. -/
theorem loopBody_cont_cases (fromT toT : Option Int) (n : Nat) (st st2 : AggSt) (l : Line)
    (h : loopBody fromT toT n st l = .cont st2) :
    st2 = st ∨ ∃ e, l = .entry e ∧ e.query ≠ "" ∧ st2 = pushEntry st e := by
  cases l with
  | malformed => simp [loopBody] at h
  | entry e =>
    by_cases hq : e.query = ""
    · left
      simp [loopBody, hq] at h
      exact h.symm
    · cases fromT with
      | some f =>
        cases hts : e.ts with
        | none => simp [loopBody, hq, hts] at h
        | some t =>
          by_cases hlt : t < f
          · left
            simp [loopBody, hq, hts, hlt] at h
            exact h.symm
          · cases toT with
            | none =>
              right
              simp [loopBody, hq, hts, hlt, checkToAndAppend] at h
              exact ⟨e, rfl, hq, h.symm⟩
            | some u =>
              by_cases hu : u < t
              · left
                simp [loopBody, hq, hts, hlt, checkToAndAppend, hu] at h
                exact h.symm
              · right
                simp [loopBody, hq, hts, hlt, checkToAndAppend, hu] at h
                exact ⟨e, rfl, hq, h.symm⟩
      | none =>
        cases toT with
        | none =>
          right
          simp [loopBody, hq, checkToAndAppend] at h
          exact ⟨e, rfl, hq, h.symm⟩
        | some u =>
          cases hts : e.ts with
          | none => simp [loopBody, hq, checkToAndAppend, hts] at h
          | some t =>
            by_cases hu : u < t
            · left
              simp [loopBody, hq, checkToAndAppend, hts, hu] at h
              exact h.symm
            · right
              simp [loopBody, hq, checkToAndAppend, hts, hu] at h
              exact ⟨e, rfl, hq, h.symm⟩

/-- Helper: the loop invariant — the concatenation of all buckets is a
permutation of the flat filtered list — carries through to a successful
outcome. -/
theorem runLoop_ok_perm (fromT toT : Option Int) (lines : List Line) :
    ∀ (n : Nat) (st : AggSt) (qs : List Query) (logs : List LogEntry),
      (∀ p ∈ st.qMap, p.1 ≠ "" ∧ p.2 ≠ []) →
      ((st.qMap.map Prod.snd).flatten).Perm st.logs →
      runLoop fromT toT n st lines = .ok qs logs →
      ((qs.map Query.logs).flatten).Perm logs := by
  induction lines with
  | nil =>
    intro n st qs logs hwf hperm hrun
    simp only [runLoop, finalize] at hrun
    obtain ⟨qs2, hbq, hmap⟩ := buildQueries_ok st.qMap hwf
    rw [hbq] at hrun
    obtain ⟨h1, h2⟩ := LoadOutcome.ok.inj hrun
    rw [← h1, ← h2, hmap]
    exact hperm
  | cons l rest ih =>
    intro n st qs logs hwf hperm hrun
    simp only [runLoop] at hrun
    cases hstep : loopBody fromT toT n st l with
    | cont st2 =>
      rw [hstep] at hrun
      rcases loopBody_cont_cases fromT toT n st st2 l hstep with h1 | ⟨e, _, hq, h2⟩
      · subst h1
        exact ih (n + 1) st2 qs logs hwf hperm hrun
      · subst h2
        refine ih (n + 1) (pushEntry st e) qs logs ?_ ?_ hrun
        · exact appendBucket_wf st.qMap e.query e hwf hq
        · exact (appendBucket_join_perm st.qMap e.query e).trans (hperm.append_right [e])
    | abortParse k =>
      rw [hstep] at hrun
      exact LoadOutcome.noConfusion hrun
    | abortCrash =>
      rw [hstep] at hrun
      exact LoadOutcome.noConfusion hrun

/-- C6: on every successful aggregation, the concatenation of the record
lists of all groups is a permutation of the flat filtered record list —
every surviving record lands in exactly one bucket (keyed by exact string
equality on its query), none is duplicated or dropped. -/
theorem c6_grouping_partition (lines : List Line) (fromT toT : Option Int)
    (qs : List Query) (logs : List LogEntry)
    (h : loadQueriesFromLog lines fromT toT = LoadOutcome.ok qs logs) :
    ((qs.map Query.logs).flatten).Perm logs :=
  runLoop_ok_perm fromT toT lines 0 { qMap := [], logs := [] } qs logs
    (by simp) (by simp) h

/-- C6 (witness): a one-record stream groups into the single bucket
`qGroupA`, whose records concatenate to exactly the filtered list. -/
theorem c6_grouping_partition_witness :
    loadQueriesFromLog [.entry eUp] none none = LoadOutcome.ok [qGroupA] [eUp] ∧
      ((([qGroupA] : List Query).map Query.logs).flatten).Perm [eUp] :=
  ⟨by decide,
    c6_grouping_partition [.entry eUp] none none [qGroupA] [eUp] (by decide)⟩

/-! ### C7 — max-metric provenance keeps the first maximiser -/

/-- Helper: the strict-`>` maximum fold either returns its seed (when
nothing beats it) or the element at some position that strictly beats the
seed, every earlier element, and weakly bounds the whole list. -/
theorem foldl_strict_max (f : LogEntry → Int) (l : List LogEntry) (a r : LogEntry)
    (hr : l.foldl (fun cur x => if f cur < f x then x else cur) a = r) :
    (r = a ∧ ∀ x ∈ l, f x ≤ f a) ∨
      (∃ i, i < l.length ∧ l.getD i default = r ∧ f a < f r ∧
        (∀ x ∈ l, f x ≤ f r) ∧ ∀ x ∈ l.take i, f x < f r) := by
  induction l generalizing a with
  | nil =>
    left
    exact ⟨hr.symm, by simp⟩
  | cons y ys ih =>
    rw [List.foldl_cons] at hr
    by_cases hy : f a < f y
    · rw [if_pos hy] at hr
      rcases ih y hr with ⟨h1, h2⟩ | ⟨i, hi, hget, hlt, hbound, hstrict⟩
      · right
        refine ⟨0, by simp, by simp [h1], by rw [h1]; exact hy, ?_, by simp⟩
        intro x hx
        rcases List.mem_cons.mp hx with rfl | h
        · rw [h1]
        · rw [h1]
          exact h2 x h
      · right
        refine ⟨i + 1, by simp only [List.length_cons]; omega, by simpa using hget,
          lt_trans hy hlt, ?_, ?_⟩
        · intro x hx
          rcases List.mem_cons.mp hx with rfl | h
          · exact le_of_lt hlt
          · exact hbound x h
        · intro x hx
          rw [List.take_succ_cons] at hx
          rcases List.mem_cons.mp hx with rfl | h
          · exact hlt
          · exact hstrict x h
    · rw [if_neg hy] at hr
      have hy' : f y ≤ f a := le_of_not_lt hy
      rcases ih a hr with ⟨h1, h2⟩ | ⟨i, hi, hget, hlt, hbound, hstrict⟩
      · left
        refine ⟨h1, ?_⟩
        intro x hx
        rcases List.mem_cons.mp hx with rfl | h
        · exact hy'
        · exact h2 x h
      · right
        refine ⟨i + 1, by simp only [List.length_cons]; omega, by simpa using hget,
          hlt, ?_, ?_⟩
        · intro x hx
          rcases List.mem_cons.mp hx with rfl | h
          · exact le_trans hy' (le_of_lt hlt)
          · exact hbound x h
        · intro x hx
          rw [List.take_succ_cons] at hx
          rcases List.mem_cons.mp hx with rfl | h
          · exact lt_of_le_of_lt hy' hlt
          · exact hstrict x h

/-- Helper: seeded with the head, the strict-`>` maximum fold returns the
*first* maximiser of the list. -/
theorem foldl_strict_max_isFirstMax (f : LogEntry → Int) (a : LogEntry) (l : List LogEntry) :
    isFirstMax f (a :: l) ((a :: l).foldl (fun cur x => if f cur < f x then x else cur) a) := by
  rcases foldl_strict_max f (a :: l) a _ rfl with ⟨h1, h2⟩ | ⟨i, hi, hget, _, hbound, hstrict⟩
  · refine ⟨0, by simp, by simp [h1], ?_, by simp⟩
    intro x hx
    rw [h1]
    exact h2 x hx
  · exact ⟨i, hi, hget, hbound, hstrict⟩

/-- C7: every group built by `NewQuery` stores, for each of the three max
metrics, the record achieving the maximum; on ties the record kept is the
first in input order (the comparison is strict `>`, never `>=`). -/
theorem c7_max_provenance (query : String) (logs : List LogEntry) (q : Query)
    (h : NewQuery query logs = some q) :
    isFirstMax (·.execTotalTime) logs q.maxExecTotalTimeEntry ∧
      isFirstMax (·.totalQueryableSamples) logs q.maxTotalQueryableSamplesEntry ∧
      isFirstMax (·.peakSamples) logs q.maxPeakSamplesEntry := by
  unfold NewQuery at h
  by_cases hq : query = ""
  · rw [if_pos hq] at h
    exact Option.noConfusion h
  · rw [if_neg hq] at h
    cases logs with
    | nil => exact Option.noConfusion h
    | cons a l =>
      obtain rfl := Option.some.inj h
      exact ⟨foldl_strict_max_isFirstMax (·.execTotalTime) a l,
        foldl_strict_max_isFirstMax (·.totalQueryableSamples) a l,
        foldl_strict_max_isFirstMax (·.peakSamples) a l⟩

/-- C7 (witness): `eUp` and `eUpTie` tie on execution time; the group
keeps the earlier `eUp` as execution-time provenance, while the strictly
larger `eUpTie` wins the two sample metrics. -/
theorem c7_max_provenance_witness :
    NewQuery "up" [eUp, eUpTie] = some qUpTieGroup ∧
      isFirstMax (·.execTotalTime) [eUp, eUpTie] qUpTieGroup.maxExecTotalTimeEntry ∧
      qUpTieGroup.maxExecTotalTimeEntry = eUp ∧
      qUpTieGroup.maxPeakSamplesEntry = eUpTie :=
  ⟨by decide,
    (c7_max_provenance "up" [eUp, eUpTie] qUpTieGroup (by decide)).1,
    by decide, by decide⟩

/-! ### C8 — ranked views are clamped to the number of groups -/

/-- C8 (counterexample): with a negative requested count the slice
expression `queries[:*argTop]` panics at runtime — no ranked view of
length `min(count, groups)` is produced. -/
theorem c8_negative_count_counterexample :
    rankedView byAvgExecDesc (-1) [qGroupA] = GoRes.crash := by decide

/-- Helper: for non-negative requested counts, the clamp-and-slice
returns a list of length `min(count, length)`. -/
theorem topSlice_length (argTop : Int) (queries : List Query) (h : 0 ≤ argTop) :
    ∃ out, topSlice argTop queries = GoRes.ok out ∧
      out.length = min argTop.toNat queries.length := by
  simp only [topSlice]
  by_cases hgt : argTop > (queries.length : Int)
  · rw [if_pos hgt]
    have h0 : (0 : Int) ≤ (queries.length : Int) := by omega
    rw [if_pos h0]
    refine ⟨_, rfl, ?_⟩
    simp only [List.length_take, Int.toNat_natCast]
    omega
  · rw [if_neg hgt, if_pos h]
    exact ⟨_, rfl, by simp only [List.length_take]⟩

/-- C8 (amended): for every group collection and every **non-negative**
requested count, the ranked view for a metric exists and has length
`min(count, number of groups)` — the count is clamped before slicing, so
a count exceeding the number of distinct queries yields exactly the
distinct queries, with no padding and no out-of-bounds access; a negative
count, however, panics (see the counterexample). -/
theorem c8_rank_length (r : Query → Query → Prop) [DecidableRel r] (argTop : Int)
    (queries : List Query) (h : 0 ≤ argTop) :
    ∃ out, rankedView r argTop queries = GoRes.ok out ∧
      out.length = min argTop.toNat queries.length := by
  obtain ⟨out, hout, hlen⟩ := topSlice_length argTop (List.insertionSort r queries) h
  refine ⟨out, hout, ?_⟩
  rw [hlen, (List.perm_insertionSort r queries).length_eq]

/-- C8 (witness): requesting 5 of 2 groups yields exactly the 2 groups. -/
theorem c8_rank_length_witness :
    (0 : Int) ≤ 5 ∧
      ∃ out, rankedView byAvgExecDesc 5 [qGroupA, qGroupB] = GoRes.ok out ∧
        out.length = min (5 : Int).toNat ([qGroupA, qGroupB] : List Query).length :=
  ⟨by decide, c8_rank_length byAvgExecDesc 5 [qGroupA, qGroupB] (by decide)⟩

/-! ### C9 — the load summary's record count and min/max timestamps -/

/-- Helper: the `main.go` loop step on a record with a non-empty query
and a present timestamp either pushes it (bucket plus stats update) when
it is inside the window, or skips it. -/
theorem mainLoopBody_window (fromT toT : Option Int) (n : Nat) (st : MainSt)
    (e : LogEntry) (t : Int) (hq : e.query ≠ "") (hts : e.ts = some t) :
    mainLoopBody fromT toT n st (.entry e) =
      .cont (if inWindow fromT toT t
        then { qMap := appendBucket st.qMap e.query e, stats := statsUpdate st.stats t }
        else st) := by
  cases fromT with
  | none =>
    cases toT with
    | none => simp [mainLoopBody, hq, hts, mainCheckToAndAppend, mainAppend, inWindow]
    | some u =>
      by_cases hu : u < t
      · have hw : inWindow none (some u) t = false := by
          simp [inWindow]
          omega
        simp [mainLoopBody, hq, hts, mainCheckToAndAppend, hu, hw]
      · have hw : inWindow none (some u) t = true := by
          simp [inWindow]
          omega
        simp [mainLoopBody, hq, hts, mainCheckToAndAppend, mainAppend, hu, hw]
  | some f =>
    by_cases hlt : t < f
    · have hw : inWindow (some f) toT t = false := by
        cases toT <;> simp [inWindow] <;> omega
      simp [mainLoopBody, hq, hts, hlt, hw]
    · cases toT with
      | none =>
        have hw : inWindow (some f) none t = true := by
          simp [inWindow]
          omega
        simp [mainLoopBody, hq, hts, hlt, mainCheckToAndAppend, mainAppend, hw]
      | some u =>
        by_cases hu : u < t
        · have hw : inWindow (some f) (some u) t = false := by
            simp [inWindow]
            omega
          simp [mainLoopBody, hq, hts, hlt, mainCheckToAndAppend, hu, hw]
        · have hw : inWindow (some f) (some u) t = true := by
            simp [inWindow]
            omega
          simp [mainLoopBody, hq, hts, hlt, mainCheckToAndAppend, mainAppend, hu, hw]

/-- Helper: on a successful `main.go` run the final stats are the initial
stats stepped through exactly the survivor timestamps, in order. -/
theorem runMainLoop_ok_stats (fromT toT : Option Int) (lines : List Line) :
    ∀ (n : Nat) (st : MainSt) (qs : List Query) (stats : LoadStats),
      runMainLoop fromT toT n st lines = .ok qs stats →
      stats.num = st.stats.num + (survivorsTs fromT toT lines).length ∧
        stats.fromT =
          (survivorsTs fromT toT lines).foldl
            (fun acc t => if t < acc then t else acc) st.stats.fromT ∧
        stats.toT =
          (survivorsTs fromT toT lines).foldl
            (fun acc t => if acc < t then t else acc) st.stats.toT := by
  induction lines with
  | nil =>
    intro n st qs stats hrun
    simp only [runMainLoop, finalizeMain] at hrun
    cases hbq : buildQueries st.qMap with
    | none =>
      rw [hbq] at hrun
      exact MainOutcome.noConfusion hrun
    | some qs2 =>
      rw [hbq] at hrun
      obtain ⟨h1, h2⟩ := MainOutcome.ok.inj hrun
      rw [← h2]
      simp [survivorsTs]
  | cons l rest ih =>
    intro n st qs stats hrun
    simp only [runMainLoop] at hrun
    cases l with
    | malformed => simp [mainLoopBody] at hrun
    | entry e =>
      by_cases hq : e.query = ""
      · rw [show mainLoopBody fromT toT n st (.entry e) = .cont st from
          by simp [mainLoopBody, hq]] at hrun
        have H := ih (n + 1) st qs stats hrun
        simpa [survivorsTs, hq] using H
      · cases hts : e.ts with
        | none =>
          have hcrash : mainLoopBody fromT toT n st (.entry e) = .abortCrash := by
            cases fromT <;> cases toT <;>
              simp [mainLoopBody, hq, hts, mainCheckToAndAppend, mainAppend]
          rw [hcrash] at hrun
          exact MainOutcome.noConfusion hrun
        | some t =>
          rw [mainLoopBody_window fromT toT n st e t hq hts] at hrun
          by_cases hw : inWindow fromT toT t = true
          · rw [if_pos hw] at hrun
            have H := ih (n + 1)
              { qMap := appendBucket st.qMap e.query e, stats := statsUpdate st.stats t }
              qs stats hrun
            have hs : survivorsTs fromT toT (.entry e :: rest) =
                t :: survivorsTs fromT toT rest := by
              simp [survivorsTs, hq, hts, hw]
            rw [hs]
            obtain ⟨h1, h2, h3⟩ := H
            refine ⟨?_, ?_, ?_⟩
            · rw [h1]
              simp only [statsUpdate, List.length_cons]
              omega
            · rw [h2]
              simp only [statsUpdate, List.foldl_cons]
            · rw [h3]
              simp only [statsUpdate, List.foldl_cons]
          · rw [if_neg hw] at hrun
            have hw' : inWindow fromT toT t = false := by
              revert hw
              cases inWindow fromT toT t <;> simp
            have H := ih (n + 1) st qs stats hrun
            have hs : survivorsTs fromT toT (.entry e :: rest) =
                survivorsTs fromT toT rest := by
              simp [survivorsTs, hq, hts, hw']
            rw [hs]
            exact H

/-- C9 (counterexample): a single survivor timestamped 200, loaded when
the clock reads 100, is reported as `from = 100` — the seed `time.Now()`
— although the least (indeed only) survivor timestamp is 200. -/
theorem c9_future_survivor_counterexample :
    mainStats? (loadQueriesFromLogMain [.entry eFuture] none none 100) =
      some { num := 1, fromT := 100, toT := 200 } ∧ (100 : Int) ≠ 200 :=
  ⟨by decide, by decide⟩

/-- C9 (amended): the summary reports the exact number of survivors, but
its `from` is the minimum of the *clock value at load start* and the
survivor timestamps, and its `to` is the maximum of the *zero time* and
the survivor timestamps; these equal the least/greatest survivor
timestamp only when some survivor is at or before the start clock,
respectively at or after the zero time. -/
theorem c9_load_stats (lines : List Line) (fromT toT : Option Int) (now0 : Int)
    (qs : List Query) (stats : LoadStats)
    (h : loadQueriesFromLogMain lines fromT toT now0 = MainOutcome.ok qs stats) :
    stats.num = (survivorsTs fromT toT lines).length ∧
      stats.fromT = (survivorsTs fromT toT lines).foldl min now0 ∧
      stats.toT = (survivorsTs fromT toT lines).foldl max 0 := by
  obtain ⟨h1, h2, h3⟩ := runMainLoop_ok_stats fromT toT lines 0
    { qMap := [], stats := { num := 0, fromT := now0, toT := 0 } } qs stats h
  have hmin : (fun acc t : Int => if t < acc then t else acc) = min := by
    funext acc t
    simp only [min_def]
    split_ifs <;> omega
  have hmax : (fun acc t : Int => if acc < t then t else acc) = max := by
    funext acc t
    simp only [max_def]
    split_ifs <;> omega
  refine ⟨by simpa using h1, ?_, ?_⟩
  · rw [h2, hmin]
  · rw [h3, hmax]

/-- C9 (witness): survivors timestamped 5 and 200 with the clock at 100:
the count is 2, `from` is `min(100, 5, 200) = 5`, `to` is
`max(0, 5, 200) = 200`. -/
theorem c9_load_stats_witness :
    loadQueriesFromLogMain [.entry eUp, .entry eFuture] none none 100 =
        MainOutcome.ok
          [{ query := "up", logs := [eUp, eFuture], avgExecTotalTime := 2
             avgTotalQueryableSamples := 5, avgPeakSamples := 2
             maxExecTotalTimeEntry := eUp, maxTotalQueryableSamplesEntry := eUp
             maxPeakSamplesEntry := eUp }]
          { num := 2, fromT := 5, toT := 200 } ∧
      (({ num := 2, fromT := 5, toT := 200 } : LoadStats).num =
          (survivorsTs none none [.entry eUp, .entry eFuture]).length ∧
        ({ num := 2, fromT := 5, toT := 200 } : LoadStats).fromT =
          (survivorsTs none none [.entry eUp, .entry eFuture]).foldl min 100 ∧
        ({ num := 2, fromT := 5, toT := 200 } : LoadStats).toT =
          (survivorsTs none none [.entry eUp, .entry eFuture]).foldl max 0) :=
  ⟨by decide,
    c9_load_stats [.entry eUp, .entry eFuture] none none 100
      [{ query := "up", logs := [eUp, eFuture], avgExecTotalTime := 2
         avgTotalQueryableSamples := 5, avgPeakSamples := 2
         maxExecTotalTimeEntry := eUp, maxTotalQueryableSamplesEntry := eUp
         maxPeakSamplesEntry := eUp }]
      { num := 2, fromT := 5, toT := 200 } (by decide)⟩

/-! ### C10 — a decoded record without a timestamp crashes the run -/

/-- C10: aggregation is total only when every structurally valid record
with a non-empty query carries a timestamp.  The record `eNoTs` (query
`"up"`, no `ts` field) crashes the run in both variants: the time-window
filter dereferences the nil timestamp when a `from` bound is set, and the
`main.go` load-stats update dereferences it even with no bound set —
instead of skipping the record or reporting a decode error. -/
theorem c10_nil_timestamp_crash :
    loadQueriesFromLog [.entry eNoTs] (some 0) none = LoadOutcome.crash ∧
      loadQueriesFromLogMain [.entry eNoTs] none none 0 = MainOutcome.crash :=
  ⟨by decide, by decide⟩
